import Mathlib

/-!
Verification of the stock/price synchronization transformations of the
seller-apis repository (files seller.py and market.py).

The embedding translates the pure transformation logic:
  - spreadsheet cell values (which may arrive as Python str or int) as PyVal,
    with pyStr modelling Python str() and pyInt modelling Python int();
  - price_conversion (seller.py, re.sub on the part before the first dot);
  - create_stocks of both files as one record-constructor-parameterized loop
    (the two bodies are line-for-line identical up to the record shape),
    with the mutable offer_ids list threaded explicitly and ValueError
    modelled by Except.error;
  - create_prices of both files (the seller variant is total and keeps the
    price as a string; the market variant parses it with int());
  - divide (seller.py) as the range-based slicing loop;
  - get_offer_ids of both files as loops over the sequence of page responses
    the marketplace endpoint would return, transport failures modelled as
    Except.error responses.
-/

/-- A decoded spreadsheet cell: Python str or int (pandas may deliver either). -/
inductive PyVal where
  | str (s : String)
  | int (n : Int)
deriving DecidableEq, Repr

/-- Python str() on a cell value. -/
def pyStr : PyVal → String
  | .str s => s
  | .int n => toString n

/-- Value of a digit list, most significant first (used to model int()). -/
def digitsToNat (cs : List Char) : Nat :=
  cs.foldl (fun a c => 10 * a + (c.toNat - Char.toNat ('0'))) 0

/-- Python int(str): optional sign then a nonempty digit run, else ValueError
(modelled as none). -/
def parseIntChars : List Char → Option Int
  | '-' :: cs =>
    if cs ≠ [] ∧ cs.all Char.isDigit then some (-(digitsToNat cs : Int)) else none
  | '+' :: cs =>
    if cs ≠ [] ∧ cs.all Char.isDigit then some ((digitsToNat cs : Int)) else none
  | cs =>
    if cs ≠ [] ∧ cs.all Char.isDigit then some ((digitsToNat cs : Int)) else none

/-- Python int() on a string, after stripping surrounding spaces. -/
def pyIntOfString (s : String) : Option Int :=
  parseIntChars (((s.toList.dropWhile (fun c => c = ' ')).reverse.dropWhile
    (fun c => c = ' ')).reverse)

/-- Python int() on a cell value: ints pass through, strings are parsed. -/
def pyInt : PyVal → Option Int
  | .int n => some n
  | .str s => pyIntOfString s

/-- One inventory row of the supplier feed: fields Kod (product code),
Tsena (raw price) and Kolichestvo (raw quantity). -/
structure Watch where
  kod : PyVal
  tsena : String
  kolichestvo : PyVal
deriving DecidableEq, Repr

/-- Python str.split on a single dot: the resulting segments. -/
def pySplitDot : List Char → List (List Char)
  | [] => [[]]
  | c :: cs =>
    if c = '.' then [] :: pySplitDot cs
    else
      match pySplitDot cs with
      | [] => [[c]]
      | p :: ps => (c :: p) :: ps

/-- seller.price_conversion: keep the part before the first dot and delete
every character that is not an ASCII digit. -/
def price_conversion (price : String) : String :=
  String.mk (((pySplitDot price.toList).headD []).filter (fun c => c.isDigit))

/-- Quantity resolution shared by both create_stocks bodies:
the sentinel ">10" gives 100, the sentinel "1" gives 0, anything else is
handed to int() and a failed parse is the ValueError of the source. -/
def resolveCount (q : PyVal) : Except String Int :=
  let count := pyStr q
  if count = ">10" then .ok 100
  else if count = "1" then .ok 0
  else
    match pyInt q with
    | some n => .ok n
    | none => .error ("invalid literal for int() with base 10: " ++ pyStr q)

/-- The matching loop of create_stocks (both files), parameterized by the
record constructor mk applied to the coerced code and the resolved count.
The offer_ids list is threaded explicitly: a matched code is removed with
list remove (first occurrence), mirroring offer_ids.remove(str(...)). -/
def stocksLoop (mk : String → Int → ρ) :
    List Watch → List String → Except String (List ρ × List String)
  | [], offer_ids => .ok ([], offer_ids)
  | w :: ws, offer_ids =>
    let c := pyStr w.kod
    if c ∈ offer_ids then
      match resolveCount w.kolichestvo with
      | .error e => .error e
      | .ok st =>
        match stocksLoop mk ws (offer_ids.erase c) with
        | .error e => .error e
        | .ok (recs, rem) => .ok (mk c st :: recs, rem)
    else stocksLoop mk ws offer_ids

/-- create_stocks of both files: run the matching loop, then append a
zero-count record for every offer id left in the working list, in the order
the ids were supplied. Returns the batch together with the final state of
the (destructively consumed) offer_ids list. -/
def stocksRun (mk : String → Int → ρ) (watch_remnants : List Watch)
    (offer_ids : List String) : Except String (List ρ × List String) :=
  match stocksLoop mk watch_remnants offer_ids with
  | .error e => .error e
  | .ok (recs, rem) => .ok (recs ++ rem.map (fun i => mk i 0), rem)

/-- Ozon stock record of seller.create_stocks. -/
structure SellerStock where
  offer_id : String
  stock : Int
deriving DecidableEq, Repr

/-- Ozon price record of seller.create_prices (the price stays a string). -/
structure SellerPrice where
  auto_action_enabled : String
  currency_code : String
  offer_id : String
  old_price : String
  price : String
deriving DecidableEq, Repr

/-- Yandex stock item of market.create_stocks. -/
structure MarketStockItem where
  count : Int
  type : String
  updatedAt : String
deriving DecidableEq, Repr

/-- Yandex stock record of market.create_stocks. -/
structure MarketStock where
  sku : String
  warehouseId : String
  items : List MarketStockItem
deriving DecidableEq, Repr

/-- Yandex price record of market.create_prices (value parsed with int()). -/
structure MarketPrice where
  id : String
  value : Int
  currencyId : String
deriving DecidableEq, Repr

namespace Seller

/-- seller.create_stocks (lines 179-234). -/
def create_stocks (watch_remnants : List Watch) (offer_ids : List String) :
    Except String (List SellerStock × List String) :=
  stocksRun SellerStock.mk watch_remnants offer_ids

/-- seller.create_prices (lines 237-283): one record per row whose coerced
code is a member of offer_ids; constants as in the source; the price field
is price_conversion of the raw price, kept as a string. -/
def create_prices : List Watch → List String → List SellerPrice
  | [], _ => []
  | w :: ws, offer_ids =>
    if pyStr w.kod ∈ offer_ids then
      SellerPrice.mk ("UNKNOWN") ("RUB") (pyStr w.kod) ("0")
          (price_conversion w.tsena) :: create_prices ws offer_ids
    else create_prices ws offer_ids

/-- seller.create_prices with the offer_ids list threaded through the loop
as state, exactly as the interpreter holds it: the body only reads it. -/
def create_pricesST : List Watch → List String → List SellerPrice × List String
  | [], offer_ids => ([], offer_ids)
  | w :: ws, offer_ids =>
    if pyStr w.kod ∈ offer_ids then
      let r := create_pricesST ws offer_ids
      (SellerPrice.mk ("UNKNOWN") ("RUB") (pyStr w.kod) ("0")
          (price_conversion w.tsena) :: r.1, r.2)
    else create_pricesST ws offer_ids

/-- Record-building data flow of seller.main (lines 387-395): the offer ids
fetched once are passed to create_stocks, which consumes the list
destructively, and create_prices then runs on the leftover state.
The network writes between the two calls do not touch these values. -/
def mainRecords (watch_remnants : List Watch) (offer_ids : List String) :
    Except String (List SellerStock × List SellerPrice) :=
  match create_stocks watch_remnants offer_ids with
  | .error e => .error e
  | .ok (stocks, offer_ids2) =>
    .ok (stocks, create_prices watch_remnants offer_ids2)

end Seller

namespace Market

/-- market.create_stocks (lines 140-229), with the warehouse id and the
timestamp string (computed once before the loop) as parameters. -/
def create_stocks (watch_remnants : List Watch) (offer_ids : List String)
    (warehouse_id : String) (date : String) :
    Except String (List MarketStock × List String) :=
  stocksRun
    (fun c st => MarketStock.mk c warehouse_id [MarketStockItem.mk st ("FIT") date])
    watch_remnants offer_ids

/-- market.create_prices (lines 232-278): the normalized price is parsed
with int(), so an empty normalization is the ValueError of the source. -/
def create_prices : List Watch → List String → Except String (List MarketPrice)
  | [], _ => .ok []
  | w :: ws, offer_ids =>
    if pyStr w.kod ∈ offer_ids then
      match pyIntOfString (price_conversion w.tsena) with
      | none =>
        .error ("invalid literal for int() with base 10: " ++
          price_conversion w.tsena)
      | some v =>
        match create_prices ws offer_ids with
        | .error e => .error e
        | .ok ps => .ok (MarketPrice.mk (pyStr w.kod) v ("RUR") :: ps)
    else create_prices ws offer_ids

end Market

/-- seller.divide (lines 312-331): for i in range(0, len(lst), n) yield
lst[i : i + n]; range(0, L, n) has (L + n - 1) / n elements for n > 0. -/
def divide (lst : List α) (n : Nat) : List (List α) :=
  (List.range' 0 ((lst.length + n - 1) / n) n).map
    (fun i => (lst.drop i).take n)

/-- Structural companion of divide: repeatedly split off the first n + 1
elements. Used to reason about divide by induction. -/
def chunks (n : Nat) : List α → List (List α)
  | [] => []
  | x :: xs => ((x :: xs).take (n + 1)) :: chunks n (xs.drop n)
termination_by l => l.length
decreasing_by
  simp only [List.length_drop, List.length_cons]
  omega

namespace Seller

/-- One Ozon product list item (only its offer_id field is consumed). -/
structure Product where
  offer_id : String
deriving DecidableEq, Repr

/-- One Ozon product/list page: items, reported total, next cursor. -/
structure Page where
  items : List Product
  total : Nat
  last_id : String
deriving DecidableEq, Repr

/-- Pagination loop of seller.get_offer_ids (lines 67-75) over the sequence
of responses the endpoint returns: extend the accumulator with the page
items and stop when the reported total equals the accumulated count.
Returns none when the given responses run out before the loop stops. -/
def get_offer_idsLoop (ε : Type) :
    List (Except ε Page) → List Product → Except ε (Option (List Product))
  | [], _ => .ok none
  | r :: rs, product_list =>
    match r with
    | .error e => .error e
    | .ok page =>
      let acc := product_list ++ page.items
      if page.total = acc.length then .ok (some acc)
      else get_offer_idsLoop ε rs acc

/-- seller.get_offer_ids (lines 47-79): run the pagination loop from the
empty accumulator and project offer_id out of every accumulated item. -/
def get_offer_ids (ε : Type) (responses : List (Except ε Page)) :
    Except ε (Option (List String)) :=
  match get_offer_idsLoop ε responses [] with
  | .error e => .error e
  | .ok none => .ok none
  | .ok (some products) => .ok (some (products.map (fun p => p.offer_id)))

/-- The stopping test of the Ozon loop never fires while consuming these
pages, starting from a accumulated items.  -/
def ozonNoStop (a : Nat) : List Page → Bool
  | [] => true
  | p :: ps =>
    (decide (p.total ≠ a + p.items.length)) && ozonNoStop (a + p.items.length) ps

end Seller

namespace Market

/-- Offer part of one offer-mapping entry (only shopSku is consumed). -/
structure Offer where
  shopSku : String
deriving DecidableEq, Repr

/-- One Yandex offer-mapping entry. -/
structure Entry where
  offer : Offer
deriving DecidableEq, Repr

/-- Paging part of a Yandex page: the continuation token, absent or empty
when there are no more pages (Python falsy test). -/
structure Page where
  offerMappingEntries : List Entry
  nextPageToken : Option String
deriving DecidableEq, Repr

/-- Python falsy test on the continuation token (None or empty string). -/
def tokenDone (t : Option String) : Bool :=
  (t.getD ("")).isEmpty

/-- Pagination loop of market.get_offer_ids (lines 126-133): extend the
accumulator with the page entries and stop when the continuation token is
falsy. Returns none when the given responses run out before stopping. -/
def get_offer_idsLoop (ε : Type) :
    List (Except ε Page) → List Entry → Except ε (Option (List Entry))
  | [], _ => .ok none
  | r :: rs, product_list =>
    match r with
    | .error e => .error e
    | .ok page =>
      let acc := product_list ++ page.offerMappingEntries
      if tokenDone page.nextPageToken then .ok (some acc)
      else get_offer_idsLoop ε rs acc

/-- market.get_offer_ids (lines 106-137): run the loop from the empty
accumulator and project offer.shopSku out of every accumulated entry. -/
def get_offer_ids (ε : Type) (responses : List (Except ε Page)) :
    Except ε (Option (List String)) :=
  match get_offer_idsLoop ε responses [] with
  | .error e => .error e
  | .ok none => .ok none
  | .ok (some entries) => .ok (some (entries.map (fun p => p.offer.shopSku)))

/-- Every continuation token of these pages is truthy, so the Yandex loop
keeps going while consuming them. -/
def marketNoStop (ps : List Page) : Bool :=
  ps.all (fun p => !(tokenDone p.nextPageToken))

end Market

/-- Matched codes of the stock loop in inventory order: the coerced code of
every row that finds its code in the working id list, which then loses that
code. This is the sequence of ids the matched records carry. -/
def firstMatches : List Watch → List String → List String
  | [], _ => []
  | w :: ws, offer_ids =>
    let c := pyStr w.kod
    if c ∈ offer_ids then c :: firstMatches ws (offer_ids.erase c)
    else firstMatches ws offer_ids

/-- Final state of the working id list after the stock loop. -/
def loopIds : List Watch → List String → List String
  | [], offer_ids => offer_ids
  | w :: ws, offer_ids =>
    let c := pyStr w.kod
    if c ∈ offer_ids then loopIds ws (offer_ids.erase c)
    else loopIds ws offer_ids


/-! ## Helper lemmas -/

theorem pySplitDot_ne_nil (cs : List Char) : pySplitDot cs ≠ [] := by
  cases cs with
  | nil => simp [pySplitDot]
  | cons c cs =>
    simp only [pySplitDot]
    by_cases h : c = '.'
    · simp [h]
    · simp only [if_neg h]
      cases hs : pySplitDot cs <;> simp

theorem pySplitDot_headD (cs : List Char) :
    (pySplitDot cs).headD [] = cs.takeWhile (fun c => c != '.') := by
  induction cs with
  | nil => rfl
  | cons c cs ih =>
    simp only [pySplitDot, List.takeWhile_cons]
    by_cases h : c = '.'
    · subst h; simp
    · have hb : (c != '.') = true := by simp [h]
      rw [hb, if_neg h]
      cases hs : pySplitDot cs with
      | nil => exact absurd hs (pySplitDot_ne_nil cs)
      | cons p ps =>
        rw [hs] at ih
        simp only [List.headD_cons] at ih ⊢
        rw [ih]
        simp

theorem chunks_flatten (n : Nat) (l : List α) : (chunks n l).flatten = l := by
  refine chunks.induct n (fun l => (chunks n l).flatten = l) ?_ (fun x xs ih => ?_) l
  · simp [chunks]
  · simp only [chunks, List.flatten_cons, ih]
    rw [show xs.drop n = (x :: xs).drop (n + 1) from rfl, List.take_append_drop]

theorem chunks_length_le (n : Nat) (l : List α) :
    ∀ b ∈ chunks n l, b.length ≤ n + 1 := by
  refine chunks.induct n (fun l => ∀ b ∈ chunks n l, b.length ≤ n + 1) ?_
    (fun x xs ih => ?_) l
  · simp [chunks]
  · intro b hb
    simp only [chunks, List.mem_cons] at hb
    rcases hb with hb | hb
    · subst hb; exact List.length_take_le _ _
    · exact ih b hb

theorem chunks_contiguous (n : Nat) (l : List α) :
    ∀ b ∈ chunks n l, ∃ pre post, l = pre ++ (b ++ post) := by
  refine chunks.induct n (fun l => ∀ b ∈ chunks n l, ∃ pre post, l = pre ++ (b ++ post)) ?_
    (fun x xs ih => ?_) l
  · simp [chunks]
  · intro b hb
    simp only [chunks, List.mem_cons] at hb
    rcases hb with hb | hb
    · refine ⟨[], (x :: xs).drop (n + 1), ?_⟩
      subst hb
      rw [List.nil_append, List.take_append_drop]
    · obtain ⟨pre, post, hsplit⟩ := ih b hb
      refine ⟨(x :: xs).take (n + 1) ++ pre, post, ?_⟩
      rw [List.append_assoc]
      rw [← hsplit, show xs.drop n = (x :: xs).drop (n + 1) from rfl,
        List.take_append_drop]

theorem chunks_eq_nil_iff (n : Nat) (l : List α) : chunks n l = [] ↔ l = [] := by
  cases l <;> simp [chunks]

theorem chunks_dropLast_length (n : Nat) (l : List α) :
    ∀ b ∈ (chunks n l).dropLast, b.length = n + 1 := by
  refine chunks.induct n (fun l => ∀ b ∈ (chunks n l).dropLast, b.length = n + 1) ?_
    (fun x xs ih => ?_) l
  · simp [chunks]
  · intro b hb
    rw [show chunks n (x :: xs) = (x :: xs).take (n + 1) :: chunks n (xs.drop n)
      from by simp [chunks]] at hb
    cases hrest : chunks n (xs.drop n) with
    | nil => rw [hrest] at hb; simp at hb
    | cons c cs =>
      rw [hrest, List.dropLast_cons_of_ne_nil (by simp), List.mem_cons] at hb
      rcases hb with hb | hb
      · subst hb
        have hne : xs.drop n ≠ [] := by
          intro hnil
          rw [hnil] at hrest
          simp [chunks] at hrest
        have hlen : n < xs.length := by
          by_contra hle
          exact hne (List.drop_eq_nil_of_le (by omega))
        simp only [List.length_take, List.length_cons]
        omega
      · exact ih b (by rw [hrest]; exact hb)

theorem range'_step_shift (k s step : Nat) :
    List.range' (s + step) k step = (List.range' s k step).map (fun i => i + step) := by
  induction k generalizing s with
  | zero => rfl
  | succ k ih =>
    rw [List.range'_succ, List.range'_succ, List.map_cons, ih (s + step)]

theorem range'_start_shift (k step : Nat) :
    List.range' step k step = (List.range' 0 k step).map (fun i => i + step) := by
  have h := range'_step_shift k 0 step
  rwa [Nat.zero_add] at h

theorem divide_cons_step (n : Nat) (h : 0 < n) (l : List α) (hl : l ≠ []) :
    divide l n = l.take n :: divide (l.drop n) n := by
  have hlen : 0 < l.length := List.length_pos.mpr hl
  have hk : (l.length + n - 1) / n = ((l.drop n).length + n - 1) / n + 1 := by
    rw [List.length_drop]
    by_cases hLn : l.length ≤ n
    · have h0 : l.length - n = 0 := by omega
      rw [h0]
      have h1 : (l.length + n - 1) / n = 1 :=
        Nat.div_eq_of_lt_le (by omega) (by omega)
      have h2 : (0 + n - 1) / n = 0 := Nat.div_eq_of_lt (by omega)
      omega
    · have h1 : l.length + n - 1 = (l.length - 1) + n := by omega
      have h2 : l.length - n + n - 1 = (l.length - n - 1) + n := by omega
      have h3 : l.length - 1 = (l.length - n - 1) + n := by omega
      rw [h1, h2, Nat.add_div_right _ h, Nat.add_div_right _ h, h3,
        Nat.add_div_right _ h]
  unfold divide
  rw [hk, List.range'_succ, List.map_cons, List.drop_zero, Nat.zero_add]
  congr 1
  rw [range'_start_shift, List.map_map]
  refine List.map_congr_left (fun i hi => ?_)
  simp only [Function.comp]
  rw [List.drop_drop, Nat.add_comm]

theorem divide_eq_chunks (n : Nat) (h : 0 < n) (l : List α) :
    divide l n = chunks (n - 1) l := by
  obtain ⟨m, rfl⟩ : ∃ m, n = m + 1 := ⟨n - 1, by omega⟩
  simp only [Nat.add_sub_cancel]
  refine chunks.induct m (fun l => divide l (m + 1) = chunks m l) ?_
    (fun x xs ih => ?_) l
  · show divide [] (m + 1) = chunks m []
    rw [show chunks m ([] : List α) = [] from by simp [chunks]]
    unfold divide
    simp only [List.length_nil, Nat.zero_add]
    rw [Nat.div_eq_of_lt (by omega)]
    rfl
  · show divide (x :: xs) (m + 1) = chunks m (x :: xs)
    have ih2 : divide (xs.drop m) (m + 1) = chunks m (xs.drop m) := ih
    rw [divide_cons_step (m + 1) (by omega) _ (by simp),
      show chunks m (x :: xs) = (x :: xs).take (m + 1) :: chunks m (xs.drop m)
        from by simp [chunks]]
    congr 1

/-! ## C7: the batcher -/

/-- C7: for every chunk size n > 0 and list lst, divide lst n yields
contiguous sub-lists of lst whose concatenation is lst (order preserved,
every element covered exactly once), each of length at most n, and every
batch except possibly the last has length exactly n. -/
theorem divide_batches_spec (lst : List α) (n : Nat) (h : 0 < n) :
    (divide lst n).flatten = lst
  ∧ (∀ b ∈ divide lst n, b.length ≤ n ∧ ∃ pre post, lst = pre ++ (b ++ post))
  ∧ (∀ b ∈ (divide lst n).dropLast, b.length = n) := by
  obtain ⟨m, rfl⟩ : ∃ m, n = m + 1 := ⟨n - 1, by omega⟩
  rw [divide_eq_chunks (m + 1) h lst]
  simp only [Nat.add_sub_cancel]
  exact ⟨chunks_flatten m lst,
    fun b hb => ⟨chunks_length_le m lst b hb, chunks_contiguous m lst b hb⟩,
    chunks_dropLast_length m lst⟩

/-- C7 witness: divide on the two-element list of the spec example with
chunk size 1 concatenates back to the input. -/
theorem divide_batches_spec_witness :
    0 < 1 ∧ (divide (["101", "102"] : List String) 1).flatten = ["101", "102"] :=
  ⟨by decide, (divide_batches_spec (["101", "102"] : List String) 1 (by decide)).1⟩

/-! ## C8: price normalization -/

/-- C8: price_conversion returns exactly the digit characters of the text
before the first dot; it is the identity on digit-only strings (hence
idempotent on already-normalized strings), and it returns the empty string
when no digit occurs before the first dot. -/
theorem price_conversion_spec :
    (∀ s : String, price_conversion s =
      String.mk ((s.toList.takeWhile (fun c => c != '.')).filter
        (fun c => c.isDigit)))
  ∧ (∀ s : String, (∀ c ∈ s.toList, c.isDigit) → price_conversion s = s)
  ∧ (∀ s : String,
      (∀ c ∈ s.toList.takeWhile (fun c => c != '.'), ¬ c.isDigit) →
      price_conversion s = "") := by
  have hchar : ∀ s : String, price_conversion s =
      String.mk ((s.toList.takeWhile (fun c => c != '.')).filter
        (fun c => c.isDigit)) := by
    intro s
    unfold price_conversion
    rw [pySplitDot_headD]
  refine ⟨hchar, fun s hdig => ?_, fun s hnone => ?_⟩
  · rw [hchar s]
    have htw : s.toList.takeWhile (fun c => c != '.') = s.toList := by
      rw [List.takeWhile_eq_self_iff]
      intro c hc
      have hd := hdig c hc
      simp only [bne_iff_ne, ne_eq]
      intro hcdot
      rw [hcdot] at hd
      simp at hd
    rw [htw, List.filter_eq_self.mpr (fun c hc => hdig c hc)]
    cases s
    rfl
  · rw [hchar s]
    rw [List.filter_eq_nil_iff.mpr (fun c hc hd => hnone c hc hd)]

/-- C8 witness: the already-normalized string of the spec example is fixed
by price_conversion. -/
theorem price_conversion_spec_witness :
    (∀ c ∈ ("5990" : String).toList, c.isDigit) ∧
    price_conversion ("5990") = "5990" :=
  ⟨by decide, price_conversion_spec.2.1 ("5990") (by decide)⟩

/-! ## C3, C5, C10: the price builders -/

theorem seller_create_prices_eq_filter_map (ws : List Watch) (ids : List String) :
    Seller.create_prices ws ids =
      (ws.filter (fun w => decide (pyStr w.kod ∈ ids))).map
        (fun w => SellerPrice.mk ("UNKNOWN") ("RUB") (pyStr w.kod) ("0")
          (price_conversion w.tsena)) := by
  induction ws with
  | nil => rfl
  | cons w ws ih =>
    simp only [Seller.create_prices, List.filter_cons]
    by_cases hm : pyStr w.kod ∈ ids
    · rw [if_pos hm]
      simp [hm, ih]
    · rw [if_neg hm]
      simp [hm, ih]

theorem market_create_prices_ok_ids (ws : List Watch) (ids : List String)
    (ps : List MarketPrice) (h : Market.create_prices ws ids = .ok ps) :
    ps.map (fun p => p.id) =
      (ws.filter (fun w => decide (pyStr w.kod ∈ ids))).map
        (fun w => pyStr w.kod) := by
  induction ws generalizing ps with
  | nil =>
    simp only [Market.create_prices] at h
    cases h
    rfl
  | cons w ws ih =>
    simp only [Market.create_prices, List.filter_cons] at h ⊢
    by_cases hm : pyStr w.kod ∈ ids
    · rw [if_pos hm] at h
      cases hp : pyIntOfString (price_conversion w.tsena) with
      | none => rw [hp] at h; cases h
      | some v =>
        rw [hp] at h
        cases hrec : Market.create_prices ws ids with
        | error e => rw [hrec] at h; cases h
        | ok ps2 =>
          rw [hrec] at h
          cases h
          simp [hm, ih ps2 hrec]
    · rw [if_neg hm] at h
      simp only [hm, decide_False, Bool.false_eq_true, if_false]
      exact ih ps h

/-- C3: price record building emits exactly one record per inventory row
whose coerced code is in the known-offer list and none for any other row
(for the Ozon builder the whole record list is the filter-then-map of the
rows; for the Yandex builder every successful run carries exactly the
matched codes); with no overlap the result is empty. -/
theorem create_prices_only_matched (ws : List Watch) (ids : List String) :
    Seller.create_prices ws ids =
      (ws.filter (fun w => decide (pyStr w.kod ∈ ids))).map
        (fun w => SellerPrice.mk ("UNKNOWN") ("RUB") (pyStr w.kod) ("0")
          (price_conversion w.tsena))
  ∧ (∀ ps, Market.create_prices ws ids = .ok ps →
      ps.map (fun p => p.id) =
        (ws.filter (fun w => decide (pyStr w.kod ∈ ids))).map
          (fun w => pyStr w.kod))
  ∧ ((∀ w ∈ ws, pyStr w.kod ∉ ids) → Seller.create_prices ws ids = []) := by
  refine ⟨seller_create_prices_eq_filter_map ws ids,
    fun ps h => market_create_prices_ok_ids ws ids ps h, fun hno => ?_⟩
  rw [seller_create_prices_eq_filter_map ws ids,
    List.filter_eq_nil_iff.mpr (fun w hw => by simp [hno w hw])]
  rfl

/-- C3 witness: the no-overlap example of the spec yields the empty price
list. -/
theorem create_prices_only_matched_witness :
    (∀ w ∈ [Watch.mk (.str ("101")) ("5990") (.str ("5"))],
      pyStr w.kod ∉ (["999"] : List String)) ∧
    Seller.create_prices [Watch.mk (.str ("101")) ("5990") (.str ("5"))]
      ["999"] = [] :=
  ⟨by decide,
    (create_prices_only_matched
      [Watch.mk (.str ("101")) ("5990") (.str ("5"))] ["999"]).2.2 (by decide)⟩

/-- C5 counterexample: in seller.create_prices a matched row whose price has
no digits is NOT a parse failure: the builder is total and emits a record
whose price field is the empty string. -/
theorem seller_prices_empty_price_counterexample :
    price_conversion ("price") = ""
  ∧ Seller.create_prices [Watch.mk (.str ("101")) ("price") (.str ("5"))]
      ["101"] =
      [SellerPrice.mk ("UNKNOWN") ("RUB") ("101") ("0") ("")] :=
  ⟨rfl, rfl⟩

/-- C5 (amended): in market.create_prices, where the normalized price is
parsed with int(), any matched row whose normalization is non-numeric (the
empty string, the only non-numeric output of price_conversion) makes the
whole build fail with a value-parsing error. -/
theorem market_prices_error_on_nonnumeric (ws : List Watch) (ids : List String)
    (w : Watch) (hw : w ∈ ws) (hm : pyStr w.kod ∈ ids)
    (hval : price_conversion w.tsena = "") :
    ∃ e, Market.create_prices ws ids = .error e := by
  induction ws with
  | nil => cases hw
  | cons w2 ws ih =>
    simp only [Market.create_prices]
    by_cases hm2 : pyStr w2.kod ∈ ids
    · rw [if_pos hm2]
      rcases List.mem_cons.mp hw with heq | hw2
      · subst heq
        rw [hval]
        exact ⟨_, rfl⟩
      · cases hp : pyIntOfString (price_conversion w2.tsena) with
        | none => exact ⟨_, rfl⟩
        | some v =>
          obtain ⟨e, he⟩ := ih hw2
          rw [he]
          exact ⟨e, rfl⟩
    · rw [if_neg hm2]
      rcases List.mem_cons.mp hw with heq | hw2
      · subst heq; exact absurd hm hm2
      · exact ih hw2

/-- C5 witness: the all-letters price of the spec example makes the Yandex
price builder fail. -/
theorem market_prices_error_on_nonnumeric_witness :
    price_conversion ("price") = "" ∧
    ∃ e, Market.create_prices
      [Watch.mk (.str ("101")) ("price") (.str ("5"))] ["101"] = .error e :=
  ⟨rfl,
    market_prices_error_on_nonnumeric
      [Watch.mk (.str ("101")) ("price") (.str ("5"))] ["101"]
      (Watch.mk (.str ("101")) ("price") (.str ("5")))
      (by simp) (by decide) rfl⟩

/-- Replace a row's code cell by its string coercion, leaving the other
cells alone. -/
def coerceRow (w : Watch) : Watch :=
  Watch.mk (.str (pyStr w.kod)) w.tsena w.kolichestvo

theorem stocksLoop_coerce (mk : String → Int → ρ) (ws : List Watch) :
    ∀ ids : List String,
      stocksLoop mk (ws.map coerceRow) ids = stocksLoop mk ws ids := by
  induction ws with
  | nil => intro ids; rfl
  | cons w ws ih =>
    intro ids
    simp only [List.map_cons, stocksLoop, coerceRow, pyStr, ih]

theorem market_prices_coerce (ws : List Watch) (ids : List String) :
    Market.create_prices (ws.map coerceRow) ids = Market.create_prices ws ids := by
  induction ws with
  | nil => rfl
  | cons w ws ih =>
    simp only [List.map_cons, Market.create_prices, coerceRow, pyStr, ih]

/-- C10: row codes are matched against offer ids after string coercion and
the id/sku carried by an emitted record is that string coercion: stock and
price building are invariant under replacing every code cell by its string
coercion, a successful Yandex price batch carries exactly the coerced codes
of the matched rows, Python str() of an integer cell is its decimal string,
and concretely an integer code 101 matches the offer id given as the string
"101". -/
theorem record_building_coerces_codes (ws : List Watch) (ids : List String) :
    Seller.create_stocks (ws.map coerceRow) ids = Seller.create_stocks ws ids
  ∧ Market.create_prices (ws.map coerceRow) ids = Market.create_prices ws ids
  ∧ (∀ ps, Market.create_prices ws ids = .ok ps →
      ps.map (fun p => p.id) =
        (ws.filter (fun w => decide (pyStr w.kod ∈ ids))).map
          (fun w => pyStr w.kod))
  ∧ (∀ n : Int, pyStr (PyVal.int n) = toString n)
  ∧ Seller.create_stocks [Watch.mk (.int 101) ("5990") (.str ("5"))] ["101"] =
      .ok ([SellerStock.mk ("101") 5], []) := by
  refine ⟨?_, market_prices_coerce ws ids,
    fun ps h => market_create_prices_ok_ids ws ids ps h, fun n => rfl, rfl⟩
  unfold Seller.create_stocks stocksRun
  rw [stocksLoop_coerce]

/-- C10 witness: a successful Yandex price build over an integer-coded row
carries the decimal-string id. -/
theorem record_building_coerces_codes_witness :
    Market.create_prices [Watch.mk (.int 101) ("5990") (.str ("5"))] ["101"] =
      .ok [MarketPrice.mk ("101") 5990 ("RUR")] ∧
    ([MarketPrice.mk ("101") 5990 ("RUR")].map (fun p => p.id)) =
      (([Watch.mk (.int 101) ("5990") (.str ("5"))].filter
        (fun w => decide (pyStr w.kod ∈ (["101"] : List String)))).map
        (fun w => pyStr w.kod)) :=
  ⟨rfl,
    (record_building_coerces_codes
      [Watch.mk (.int 101) ("5990") (.str ("5"))] ["101"]).2.2.1
      [MarketPrice.mk ("101") 5990 ("RUR")] rfl⟩

/-- C4 (code bug): in the record-building flow of seller.main the price
batch is built from the leftover offer-id state create_stocks produced, so
the matched row of code "101" yields NO price record there, while price
building over the offer ids as fetched in step (1) yields exactly one. -/
theorem main_price_batch_empty :
    Seller.mainRecords [Watch.mk (.str ("101")) ("5990") (.str ("5"))]
      ["101"] = .ok ([SellerStock.mk ("101") 5], [])
  ∧ Seller.create_prices [Watch.mk (.str ("101")) ("5990") (.str ("5"))]
      ["101"] =
      [SellerPrice.mk ("UNKNOWN") ("RUB") ("101") ("0") ("5990")] :=
  ⟨rfl, rfl⟩

/-! ## Stock-loop lemmas for C1, C2, C9 -/

theorem stocksLoop_append_error (mk : String → Int → ρ) (ws1 ws2 : List Watch) :
    ∀ (ids : List String) (e : String),
      stocksLoop mk ws1 ids = .error e →
      stocksLoop mk (ws1 ++ ws2) ids = .error e := by
  induction ws1 with
  | nil => intro ids e h; cases h
  | cons w ws1 ih =>
    intro ids e h
    rw [List.cons_append]
    simp only [stocksLoop] at h ⊢
    by_cases hc : pyStr w.kod ∈ ids
    · rw [if_pos hc] at h ⊢
      cases hr : resolveCount w.kolichestvo with
      | error e2 => simp only [hr] at h ⊢; exact h
      | ok st =>
        simp only [hr] at h ⊢
        cases h1 : stocksLoop mk ws1 (ids.erase (pyStr w.kod)) with
        | error e2 =>
          simp only [h1] at h
          cases h
          simp only [ih _ _ h1]
        | ok p1 =>
          obtain ⟨r1, ids1⟩ := p1
          simp only [h1] at h
          cases h2 : stocksLoop mk ws2 ids1 <;> simp [h2] at h
    · rw [if_neg hc] at h ⊢
      exact ih _ _ h

theorem stocksLoop_append_ok (mk : String → Int → ρ) (ws1 ws2 : List Watch) :
    ∀ (ids : List String) (r1 : List ρ) (ids1 : List String),
      stocksLoop mk ws1 ids = .ok (r1, ids1) →
      ((∀ e, stocksLoop mk ws2 ids1 = .error e →
          stocksLoop mk (ws1 ++ ws2) ids = .error e)
       ∧ (∀ r2 ids2, stocksLoop mk ws2 ids1 = .ok (r2, ids2) →
          stocksLoop mk (ws1 ++ ws2) ids = .ok (r1 ++ r2, ids2))) := by
  induction ws1 with
  | nil =>
    intro ids r1 ids1 h
    cases h
    constructor
    · intro e h2
      exact h2
    · intro r2 ids2 h2
      rw [List.nil_append, List.nil_append, h2]
  | cons w ws1 ih =>
    intro ids r1 ids1 h
    rw [List.cons_append]
    simp only [stocksLoop] at h ⊢
    by_cases hc : pyStr w.kod ∈ ids
    · rw [if_pos hc] at h ⊢
      cases hr : resolveCount w.kolichestvo with
      | error e2 => simp only [hr] at h; cases h
      | ok st =>
        simp only [hr] at h ⊢
        cases h1 : stocksLoop mk ws1 (ids.erase (pyStr w.kod)) with
        | error e2 => simp only [h1] at h; cases h
        | ok p1 =>
          obtain ⟨r0, ids0⟩ := p1
          simp only [h1] at h
          cases h
          obtain ⟨iherr, ihok⟩ := ih _ _ _ h1
          constructor
          · intro e h2
            simp only [iherr e h2]
          · intro r2 ids2 h2
            simp only [ihok r2 ids2 h2]
            rw [List.cons_append]
    · rw [if_neg hc] at h ⊢
      exact ih _ _ _ h

theorem stocksLoop_ok_proj (mk : String → Int → ρ) (π : ρ → String)
    (hπ : ∀ c st, π (mk c st) = c) (ws : List Watch) :
    ∀ (ids : List String) (recs : List ρ) (rem : List String),
      stocksLoop mk ws ids = .ok (recs, rem) →
      recs.map π = firstMatches ws ids ∧ rem = loopIds ws ids := by
  induction ws with
  | nil =>
    intro ids recs rem h
    cases h
    simp [firstMatches, loopIds]
  | cons w ws ih =>
    intro ids recs rem h
    simp only [stocksLoop] at h
    simp only [firstMatches, loopIds]
    by_cases hc : pyStr w.kod ∈ ids
    · rw [if_pos hc] at h
      rw [if_pos hc, if_pos hc]
      cases hr : resolveCount w.kolichestvo with
      | error e => rw [hr] at h; cases h
      | ok st =>
        rw [hr] at h
        cases h1 : stocksLoop mk ws (ids.erase (pyStr w.kod)) with
        | error e => rw [h1] at h; cases h
        | ok p1 =>
          obtain ⟨r1, ids1⟩ := p1
          rw [h1] at h
          cases h
          obtain ⟨hmap, hids⟩ := ih _ _ _ h1
          exact ⟨by rw [List.map_cons, hπ, hmap], hids⟩
    · rw [if_neg hc] at h
      rw [if_neg hc, if_neg hc]
      exact ih _ _ _ h

theorem loopIds_filter (ws : List Watch) :
    ∀ ids : List String, ids.Nodup →
      loopIds ws ids =
        ids.filter (fun i => decide (i ∉ ws.map (fun w => pyStr w.kod))) := by
  induction ws with
  | nil =>
    intro ids _
    simp [loopIds]
  | cons w ws ih =>
    intro ids hnd
    simp only [loopIds, List.map_cons]
    by_cases hc : pyStr w.kod ∈ ids
    · rw [if_pos hc, ih _ (hnd.erase _), hnd.erase_eq_filter, List.filter_filter]
      refine List.filter_congr (fun i hi => ?_)
      by_cases h1 : i = pyStr w.kod <;>
        by_cases h2 : i ∈ ws.map (fun w => pyStr w.kod) <;>
          simp [h1, h2]
    · rw [if_neg hc, ih _ hnd]
      refine List.filter_congr (fun i hi => ?_)
      have hne : ¬ i = pyStr w.kod := fun h => hc (h ▸ hi)
      by_cases h2 : i ∈ ws.map (fun w => pyStr w.kod) <;> simp [h2, hne]

theorem firstMatches_sublist (ws : List Watch) :
    ∀ ids : List String,
      List.Sublist (firstMatches ws ids) (ws.map (fun w => pyStr w.kod)) := by
  induction ws with
  | nil => intro ids; simp [firstMatches]
  | cons w ws ih =>
    intro ids
    simp only [firstMatches, List.map_cons]
    by_cases hc : pyStr w.kod ∈ ids
    · rw [if_pos hc]
      exact List.Sublist.cons₂ _ (ih _)
    · rw [if_neg hc]
      exact List.Sublist.cons _ (ih _)

theorem firstMatches_mem (ws : List Watch) :
    ∀ ids : List String, ids.Nodup → ∀ i : String,
      i ∈ firstMatches ws ids ↔
        (i ∈ ids ∧ i ∈ ws.map (fun w => pyStr w.kod)) := by
  induction ws with
  | nil => intro ids _ i; simp [firstMatches]
  | cons w ws ih =>
    intro ids hnd i
    simp only [firstMatches, List.map_cons]
    by_cases hc : pyStr w.kod ∈ ids
    · rw [if_pos hc]
      rw [List.mem_cons, List.mem_cons]
      constructor
      · intro hmem
        rcases hmem with heq | hmem
        · exact ⟨heq ▸ hc, Or.inl heq⟩
        · obtain ⟨hi, hmap⟩ := (ih _ (hnd.erase _) i).mp hmem
          exact ⟨List.mem_of_mem_erase hi, Or.inr hmap⟩
      · rintro ⟨hi, heq | hmap⟩
        · exact Or.inl heq
        · by_cases heq2 : i = pyStr w.kod
          · exact Or.inl heq2
          · refine Or.inr ((ih _ (hnd.erase _) i).mpr ⟨?_, hmap⟩)
            exact (List.mem_erase_of_ne heq2).mpr hi
    · rw [if_neg hc]
      rw [List.mem_cons]
      constructor
      · intro hmem
        obtain ⟨hi, hmap⟩ := (ih _ hnd i).mp hmem
        exact ⟨hi, Or.inr hmap⟩
      · rintro ⟨hi, heq | hmap⟩
        · exact absurd (heq ▸ hi) hc
        · exact (ih _ hnd i).mpr ⟨hi, hmap⟩

theorem firstMatches_nodup (ws : List Watch) :
    ∀ ids : List String, ids.Nodup → (firstMatches ws ids).Nodup := by
  induction ws with
  | nil => intro ids _; simp [firstMatches]
  | cons w ws ih =>
    intro ids hnd
    simp only [firstMatches]
    by_cases hc : pyStr w.kod ∈ ids
    · rw [if_pos hc]
      refine List.nodup_cons.mpr ⟨?_, ih _ (hnd.erase _)⟩
      intro hmem
      obtain ⟨hi, _⟩ := (firstMatches_mem ws _ (hnd.erase _) _).mp hmem
      exact hnd.not_mem_erase hi
    · rw [if_neg hc]
      exact ih _ hnd

theorem stocksRun_shape (mk : String → Int → ρ) (π : ρ → String)
    (hπ : ∀ c st, π (mk c st) = c) (ws : List Watch) (ids : List String)
    (recs : List ρ) (rem : List String) (hnd : ids.Nodup)
    (h : stocksRun mk ws ids = .ok (recs, rem)) :
    recs.map π = firstMatches ws ids ++
      ids.filter (fun i => decide (i ∉ ws.map (fun w => pyStr w.kod)))
  ∧ rem = ids.filter (fun i => decide (i ∉ ws.map (fun w => pyStr w.kod)))
  ∧ (recs.map π).Perm ids
  ∧ (∀ i ∈ ids, (recs.map π).count i = 1)
  ∧ (∀ i ∈ ids, i ∉ ws.map (fun w => pyStr w.kod) → mk i 0 ∈ recs) := by
  unfold stocksRun at h
  cases hloop : stocksLoop mk ws ids with
  | error e => rw [hloop] at h; cases h
  | ok p =>
    obtain ⟨r1, rem1⟩ := p
    rw [hloop] at h
    have he1 : recs = r1 ++ rem1.map (fun i => mk i 0) := by
      cases h
      rfl
    have he2 : rem = rem1 := by
      cases h
      rfl
    obtain ⟨hmap1, hrem1⟩ := stocksLoop_ok_proj mk π hπ ws ids r1 rem1 hloop
    have hfil : rem1 =
        ids.filter (fun i => decide (i ∉ ws.map (fun w => pyStr w.kod))) := by
      rw [hrem1, loopIds_filter ws ids hnd]
    have hzero : (rem1.map (fun i => mk i 0)).map π = rem1 := by
      rw [List.map_map]
      have h2 : ∀ i ∈ rem1, (π ∘ fun i => mk i 0) i = i := fun i _ => hπ i 0
      rw [List.map_congr_left h2]
      simp
    have hmap : recs.map π =
        firstMatches ws ids ++
          ids.filter (fun i => decide (i ∉ ws.map (fun w => pyStr w.kod))) := by
      rw [he1, List.map_append, hmap1, hzero, hfil]
    have hperm : (recs.map π).Perm ids := by
      rw [hmap]
      have hp1 : (firstMatches ws ids).Perm
          (ids.filter (fun i => decide (i ∈ ws.map (fun w => pyStr w.kod)))) := by
        rw [List.perm_ext_iff_of_nodup (firstMatches_nodup ws ids hnd)
          (hnd.filter _)]
        intro a
        rw [firstMatches_mem ws ids hnd a, List.mem_filter]
        simp
      have hp2 := List.filter_append_perm
        (fun i => decide (i ∈ ws.map (fun w => pyStr w.kod))) ids
      have hq : ids.filter
            (fun i => !(decide (i ∈ ws.map (fun w => pyStr w.kod)))) =
          ids.filter (fun i => decide (i ∉ ws.map (fun w => pyStr w.kod))) := by
        refine List.filter_congr (fun i _ => ?_)
        by_cases hmem : i ∈ ws.map (fun w => pyStr w.kod) <;> simp [hmem]
      rw [hq] at hp2
      exact (hp1.append (List.Perm.refl _)).trans hp2
    refine ⟨hmap, by rw [he2, hfil], hperm, fun i hi => ?_, fun i hi hno => ?_⟩
    · rw [hperm.count_eq i]
      exact List.count_eq_one_of_mem hnd hi
    · rw [he1]
      refine List.mem_append_right _ (List.mem_map.mpr ⟨i, ?_, rfl⟩)
      rw [hfil]
      exact List.mem_filter.mpr ⟨hi, by simp [hno]⟩

/-! ## C1, C2, C9: stock record building -/

/-- C1: for a duplicate-free known-offer list, a successful stock build
yields one record per known offer id: the projected ids are a permutation
of the supplied ids with count one each, listed as the matched codes (a
sub-sequence of the inventory codes, so in inventory order, containing
exactly the ids whose code occurs in some row) followed by the unmatched
ids in supplied order, the latter as zero-count records. -/
theorem create_stocks_batch_shape (ws : List Watch) (ids : List String)
    (recs : List SellerStock) (rem : List String) (hnd : ids.Nodup)
    (h : Seller.create_stocks ws ids = .ok (recs, rem)) :
    recs.map (fun r => r.offer_id) = firstMatches ws ids ++
      ids.filter (fun i => decide (i ∉ ws.map (fun w => pyStr w.kod)))
  ∧ List.Sublist (firstMatches ws ids) (ws.map (fun w => pyStr w.kod))
  ∧ (∀ i : String, i ∈ firstMatches ws ids ↔
      (i ∈ ids ∧ i ∈ ws.map (fun w => pyStr w.kod)))
  ∧ (recs.map (fun r => r.offer_id)).Perm ids
  ∧ (∀ i ∈ ids, (recs.map (fun r => r.offer_id)).count i = 1)
  ∧ (∀ i ∈ ids, i ∉ ws.map (fun w => pyStr w.kod) →
      SellerStock.mk i 0 ∈ recs) := by
  have hs := stocksRun_shape SellerStock.mk (fun r => r.offer_id)
    (fun c st => rfl) ws ids recs rem hnd h
  exact ⟨hs.1, firstMatches_sublist ws ids, firstMatches_mem ws ids hnd,
    hs.2.2.1, hs.2.2.2.1, hs.2.2.2.2⟩

/-- C1 witness: with inventory row 101 and known ids 101 and 102, the
batch ids are a permutation of the known ids. -/
theorem create_stocks_batch_shape_witness :
    (["101", "102"] : List String).Nodup
  ∧ Seller.create_stocks [Watch.mk (.str ("101")) ("5990") (.str ("5"))]
      ["101", "102"] =
      .ok ([SellerStock.mk ("101") 5, SellerStock.mk ("102") 0], ["102"])
  ∧ ([SellerStock.mk ("101") 5, SellerStock.mk ("102") 0].map
      (fun r => r.offer_id)).Perm ["101", "102"] :=
  ⟨by decide, rfl,
    (create_stocks_batch_shape
      [Watch.mk (.str ("101")) ("5990") (.str ("5"))] ["101", "102"]
      [SellerStock.mk ("101") 5, SellerStock.mk ("102") 0] ["102"]
      (by decide) rfl).2.2.2.1⟩

/-- C2: quantity resolution maps the sentinel ">10" to 100 and the sentinel
"1" to 0, parses any other value int() accepts to that integer, fails on
any other value, and such a failure on a row matched during the stock loop
makes the whole create_stocks call return the error (no batch at all). -/
theorem stock_quantity_policy :
    (∀ q : PyVal, pyStr q = ">10" → resolveCount q = .ok 100)
  ∧ (∀ q : PyVal, pyStr q = "1" → resolveCount q = .ok 0)
  ∧ (∀ (q : PyVal) (n : Int), pyStr q ≠ ">10" → pyStr q ≠ "1" →
      pyInt q = some n → resolveCount q = .ok n)
  ∧ (∀ q : PyVal, pyStr q ≠ ">10" → pyStr q ≠ "1" → pyInt q = none →
      resolveCount q =
        .error ("invalid literal for int() with base 10: " ++ pyStr q))
  ∧ (∀ (ws1 : List Watch) (w : Watch) (ws2 : List Watch)
      (ids : List String) (recs1 : List SellerStock) (ids1 : List String)
      (e : String),
      stocksLoop SellerStock.mk ws1 ids = .ok (recs1, ids1) →
      pyStr w.kod ∈ ids1 →
      resolveCount w.kolichestvo = .error e →
      Seller.create_stocks (ws1 ++ w :: ws2) ids = .error e) := by
  refine ⟨?_, ?_, ?_, ?_, ?_⟩
  · intro q h; simp [resolveCount, h]
  · intro q h; simp [resolveCount, h]
  · intro q n h1 h2 h3; simp [resolveCount, h1, h2, h3]
  · intro q h1 h2 h3; simp [resolveCount, h1, h2, h3]
  · intro ws1 w ws2 ids recs1 ids1 e h1 hm he
    have herr : stocksLoop SellerStock.mk (w :: ws2) ids1 = .error e := by
      simp only [stocksLoop]
      rw [if_pos hm, he]
    have hrun := (stocksLoop_append_ok SellerStock.mk ws1 (w :: ws2)
      ids recs1 ids1 h1).1 e herr
    unfold Seller.create_stocks stocksRun
    rw [hrun]

/-- C2 witness: a matched row with the non-numeric quantity "null" aborts
the whole batch with the int() parse error. -/
theorem stock_quantity_policy_witness :
    stocksLoop SellerStock.mk [] ["101"] = .ok ([], ["101"])
  ∧ Seller.create_stocks
      [Watch.mk (.str ("101")) ("5990") (.str ("null"))] ["101"] =
      .error ("invalid literal for int() with base 10: null") :=
  ⟨rfl,
    stock_quantity_policy.2.2.2.2 []
      (Watch.mk (.str ("101")) ("5990") (.str ("null"))) [] ["101"] []
      ["101"] ("invalid literal for int() with base 10: null") rfl
      (by decide) rfl⟩

/-- C9: on a duplicate-free working list, a completed stock build leaves
exactly the ids no inventory code matched, in their supplied order (matched
ids are removed, nothing else changes), while the price builder threads the
offer-id list through unchanged and its output is the ordinary one. -/
theorem stocks_consume_ids_prices_readonly (ws : List Watch)
    (ids : List String) (hnd : ids.Nodup) :
    (∀ recs rem, Seller.create_stocks ws ids = .ok (recs, rem) →
      rem = ids.filter (fun i => decide (i ∉ ws.map (fun w => pyStr w.kod))))
  ∧ (Seller.create_pricesST ws ids).2 = ids
  ∧ (Seller.create_pricesST ws ids).1 = Seller.create_prices ws ids := by
  refine ⟨fun recs rem h =>
    (stocksRun_shape SellerStock.mk (fun r => r.offer_id)
      (fun c st => rfl) ws ids recs rem hnd h).2.1, ?_, ?_⟩
  · induction ws with
    | nil => rfl
    | cons w ws ih =>
      simp only [Seller.create_pricesST]
      by_cases hc : pyStr w.kod ∈ ids
      · rw [if_pos hc]; exact ih
      · rw [if_neg hc]; exact ih
  · induction ws with
    | nil => rfl
    | cons w ws ih =>
      simp only [Seller.create_pricesST, Seller.create_prices]
      by_cases hc : pyStr w.kod ∈ ids
      · rw [if_pos hc, if_pos hc]
        exact congrArg _ ih
      · rw [if_neg hc, if_neg hc]
        exact ih

/-- C9 witness: the completed stock build on ids 101 and 102 with row 101
leaves exactly the unmatched id 102. -/
theorem stocks_consume_ids_prices_readonly_witness :
    (["101", "102"] : List String).Nodup
  ∧ (["102"] : List String) =
      (["101", "102"] : List String).filter
        (fun i => decide (i ∉
          ([Watch.mk (.str ("101")) ("5990") (.str ("5"))]).map
            (fun w => pyStr w.kod))) :=
  ⟨by decide,
    (stocks_consume_ids_prices_readonly
      [Watch.mk (.str ("101")) ("5990") (.str ("5"))] ["101", "102"]
      (by decide)).1
      [SellerStock.mk ("101") 5, SellerStock.mk ("102") 0] ["102"] rfl⟩

/-! ## C6: offer-id pagination -/

theorem ozonLoop_no_stop (ε : Type) (ps : List Seller.Page) :
    ∀ (acc : List Seller.Product) (rest : List (Except ε Seller.Page)),
      Seller.ozonNoStop acc.length ps = true →
      Seller.get_offer_idsLoop ε (ps.map Except.ok ++ rest) acc =
        Seller.get_offer_idsLoop ε rest
          (acc ++ (ps.map (fun p => p.items)).flatten) := by
  induction ps with
  | nil =>
    intro acc rest _
    simp
  | cons p ps ih =>
    intro acc rest h
    simp only [Seller.ozonNoStop, Bool.and_eq_true, decide_eq_true_eq] at h
    obtain ⟨hne, hrest⟩ := h
    simp only [List.map_cons, List.cons_append, Seller.get_offer_idsLoop]
    have hcond : ¬ (p.total = (acc ++ p.items).length) := by
      rw [List.length_append]
      exact hne
    rw [if_neg hcond]
    simp only [List.append_eq]
    rw [ih (acc ++ p.items) rest (by rw [List.length_append]; exact hrest),
      List.flatten_cons, ← List.append_assoc]

theorem marketLoop_no_stop (ε : Type) (ps : List Market.Page) :
    ∀ (acc : List Market.Entry) (rest : List (Except ε Market.Page)),
      Market.marketNoStop ps = true →
      Market.get_offer_idsLoop ε (ps.map Except.ok ++ rest) acc =
        Market.get_offer_idsLoop ε rest
          (acc ++ (ps.map (fun p => p.offerMappingEntries)).flatten) := by
  induction ps with
  | nil =>
    intro acc rest _
    simp
  | cons p ps ih =>
    intro acc rest h
    simp only [Market.marketNoStop, List.all_cons, Bool.and_eq_true,
      Bool.not_eq_true'] at h
    obtain ⟨hne, hrest⟩ := h
    simp only [List.map_cons, List.cons_append, Market.get_offer_idsLoop]
    rw [if_neg (by rw [hne]; exact Bool.false_ne_true)]
    simp only [List.append_eq]
    rw [ih (acc ++ p.offerMappingEntries) rest
        (by simp only [Market.marketNoStop]; exact hrest),
      List.flatten_cons, ← List.append_assoc]

/-- C6: each offer-id fetcher consumes ok pages while its marketplace has
not signalled the end (Ozon: accumulated count equal to the reported total;
Yandex: falsy continuation token), then returns exactly the identifiers of
all accumulated items, ignoring any later responses; a transport error on
any page before the signal propagates as the result, with no partial
value. -/
theorem get_offer_ids_pagination (ε : Type) :
    (∀ (ps : List Seller.Page) (p : Seller.Page)
        (rest : List (Except ε Seller.Page)),
      Seller.ozonNoStop 0 ps = true →
      p.total = ((ps.map (fun q => q.items)).flatten).length + p.items.length →
      Seller.get_offer_ids ε ((ps ++ [p]).map Except.ok ++ rest) =
        .ok (some ((((ps ++ [p]).map (fun q => q.items)).flatten).map
          (fun pr => pr.offer_id))))
  ∧ (∀ (ps : List Seller.Page) (e : ε) (rest : List (Except ε Seller.Page)),
      Seller.ozonNoStop 0 ps = true →
      Seller.get_offer_ids ε (ps.map Except.ok ++ .error e :: rest) = .error e)
  ∧ (∀ (ps : List Market.Page) (p : Market.Page)
        (rest : List (Except ε Market.Page)),
      Market.marketNoStop ps = true →
      Market.tokenDone p.nextPageToken = true →
      Market.get_offer_ids ε ((ps ++ [p]).map Except.ok ++ rest) =
        .ok (some ((((ps ++ [p]).map (fun q => q.offerMappingEntries)).flatten).map
          (fun en => en.offer.shopSku))))
  ∧ (∀ (ps : List Market.Page) (e : ε) (rest : List (Except ε Market.Page)),
      Market.marketNoStop ps = true →
      Market.get_offer_ids ε (ps.map Except.ok ++ .error e :: rest) =
        .error e) := by
  refine ⟨fun ps p rest hno hstop => ?_, fun ps e rest hno => ?_,
    fun ps p rest hno hstop => ?_, fun ps e rest hno => ?_⟩
  · unfold Seller.get_offer_ids
    rw [List.map_append, List.append_assoc,
      ozonLoop_no_stop ε ps [] (([p].map Except.ok) ++ rest) hno]
    simp only [List.map_cons, List.map_nil, List.cons_append, List.nil_append,
      Seller.get_offer_idsLoop]
    rw [if_pos (by rw [List.length_append]; exact hstop)]
    simp [List.flatten_append]
  · unfold Seller.get_offer_ids
    rw [ozonLoop_no_stop ε ps [] (.error e :: rest) hno]
    rfl
  · unfold Market.get_offer_ids
    rw [List.map_append, List.append_assoc,
      marketLoop_no_stop ε ps [] (([p].map Except.ok) ++ rest) hno]
    simp only [List.map_cons, List.map_nil, List.cons_append, List.nil_append,
      Market.get_offer_idsLoop]
    rw [if_pos hstop]
    simp [List.flatten_append]
  · unfold Market.get_offer_ids
    rw [marketLoop_no_stop ε ps [] (.error e :: rest) hno]
    rfl

/-- C6 witness: a single Ozon page whose reported total equals its item
count makes the fetcher stop and return that item's offer id. -/
theorem get_offer_ids_pagination_witness :
    Seller.ozonNoStop 0 [] = true
  ∧ (Seller.Page.mk [Seller.Product.mk ("101")] 1 ("")).total =
      ((([] : List Seller.Page).map (fun q => q.items)).flatten).length +
        (Seller.Page.mk [Seller.Product.mk ("101")] 1 ("")).items.length
  ∧ Seller.get_offer_ids String
      ((([] : List Seller.Page) ++ [Seller.Page.mk [Seller.Product.mk ("101")] 1 ("")]).map
        Except.ok ++ []) =
      .ok (some ["101"]) :=
  ⟨rfl, rfl,
    (get_offer_ids_pagination String).1 []
      (Seller.Page.mk [Seller.Product.mk ("101")] 1 ("")) [] rfl rfl⟩
